import Mathlib

/-!
Verification model of the stabby real-time audio core.

Shallow embedding of:
- src/src/engine/async/spsc_queue.h   (SPSCQueue<T, Size>, at the audio
  instantiation Size = 256 from audio_queue.h: SPSCQueue<AudioCommand, 256>)
- src/src/engine/audio/audio_queue.cpp / audio_queue.h (AudioCommand, pushStop, clear)
- src/src/engine/audio/audio_engine.cpp / audio_engine.h (AudioChannel, AudioEngine)

Machine floats are modelled by exact rationals; the stereo mixing buffer is
real-valued because the spatialization path takes a square root. The queue
indices are Fin 256, mirroring the size_t values that the source keeps in
[0, 256) through its modulo-Size arithmetic.
-/

namespace ste

/-- SPSC ring buffer state: two indices and a fixed 256-slot backing array
(spsc_queue.h lines 13-17). The atomics are modelled as plain fields since all
claims are about the sequential behaviour. -/
structure SPSCQueue (α : Type) where
  writeIndex : Fin 256
  readIndex : Fin 256
  buffer : Fin 256 → α

namespace SPSCQueue

variable {α : Type}

/-- Number of items held (spsc_queue.h lines 24-28). -/
def size (q : SPSCQueue α) : ℕ :=
  if q.readIndex.val ≤ q.writeIndex.val then q.writeIndex.val - q.readIndex.val
  else 256 - (q.readIndex.val - q.writeIndex.val)

/-- Emptiness test (spsc_queue.h lines 31-34). -/
def empty (q : SPSCQueue α) : Bool := q.readIndex == q.writeIndex

/-- Fullness test (spsc_queue.h lines 37-40). -/
def full (q : SPSCQueue α) : Bool := q.writeIndex + 1 == q.readIndex

/-- try_push (spsc_queue.h lines 43-56): fails without touching state when the
slot after the write index equals the read index, otherwise stores the item at
the write index and advances it by one modulo 256. -/
def try_push (q : SPSCQueue α) (item : α) : Bool × SPSCQueue α :=
  let current := q.writeIndex
  let next := current + 1
  if next = q.readIndex then (false, q)
  else
    (true, { q with buffer := fun j => if j = current then item else q.buffer j,
                    writeIndex := next })

/-- try_pop (spsc_queue.h lines 58-69): returns none when read == write,
otherwise the item at the read index, advancing it by one modulo 256. -/
def try_pop (q : SPSCQueue α) : Option α × SPSCQueue α :=
  let current := q.readIndex
  if current = q.writeIndex then (none, q)
  else (some (q.buffer current), { q with readIndex := current + 1 })

/-- A freshly constructed queue: both indices zero, buffer default-initialized
(spsc_queue.h lines 15-17). -/
def init (a₀ : α) : SPSCQueue α := ⟨0, 0, fun _ => a₀⟩

/-- Slot i positions past the read index, wrapping modulo 256. -/
def slot (q : SPSCQueue α) (i : ℕ) : α :=
  q.buffer ⟨(q.readIndex.val + i) % 256, Nat.mod_lt _ (by norm_num)⟩

/-- Abstraction: the sequence of items currently stored, oldest first. -/
def contents (q : SPSCQueue α) : List α :=
  (List.range q.size).map q.slot

/-- Push a whole list, left to right, collecting each try_push result. -/
def pushList (q : SPSCQueue α) : List α → SPSCQueue α × List Bool
  | [] => (q, [])
  | a :: t =>
    let r := q.try_push a
    let rest := r.2.pushList t
    (rest.1, r.1 :: rest.2)

/-- Pop n times, collecting each try_pop result. -/
def popN (q : SPSCQueue α) : ℕ → SPSCQueue α × List (Option α)
  | 0 => (q, [])
  | n + 1 =>
    let r := q.try_pop
    let rest := r.2.popN n
    (rest.1, r.1 :: rest.2)

theorem size_lt (q : SPSCQueue α) : q.size < 256 := by
  have hr := q.readIndex.isLt
  have hw := q.writeIndex.isLt
  unfold size
  split <;> omega

/-- Modular characterization of size: read + size = write, possibly wrapped. -/
theorem size_key (q : SPSCQueue α) :
    q.size + q.readIndex.val = q.writeIndex.val ∨
    q.size + q.readIndex.val = q.writeIndex.val + 256 := by
  have hr := q.readIndex.isLt
  have hw := q.writeIndex.isLt
  unfold size
  split <;> omega

theorem init_size (a₀ : α) : (init a₀).size = 0 := rfl

theorem init_contents (a₀ : α) : (init a₀).contents = [] := rfl

/-- A full queue (size 255, one slot wasted) rejects the push and returns the
state unchanged. -/
theorem try_push_full (q : SPSCQueue α) (a : α) (h : q.size = 255) :
    q.try_push a = (false, q) := by
  have hr := q.readIndex.isLt
  have hw := q.writeIndex.isLt
  have key := q.size_key
  have hnext : q.writeIndex + 1 = q.readIndex := by
    apply Fin.ext
    rw [Fin.val_add]
    have h1 : (1 : Fin 256).val = 1 := rfl
    rw [h1]
    omega
  simp [try_push, hnext]

theorem slot_zero (q : SPSCQueue α) : q.slot 0 = q.buffer q.readIndex := by
  have hr := q.readIndex.isLt
  unfold slot
  apply congrArg
  apply Fin.ext
  show (q.readIndex.val + 0) % 256 = q.readIndex.val
  omega

theorem slot_read_succ (q : SPSCQueue α) (i : ℕ) :
    ({ q with readIndex := q.readIndex + 1 } : SPSCQueue α).slot i = q.slot (i + 1) := by
  have hr := q.readIndex.isLt
  have h1 : (1 : Fin 256).val = 1 := rfl
  unfold slot
  show q.buffer _ = q.buffer _
  apply congrArg
  apply Fin.ext
  show ((q.readIndex + 1).val + i) % 256 = (q.readIndex.val + (i + 1)) % 256
  rw [Fin.val_add, h1]
  omega

theorem slot_after_push (q : SPSCQueue α) (a : α) (i : ℕ) :
    ({ q with buffer := fun j => if j = q.writeIndex then a else q.buffer j,
              writeIndex := q.writeIndex + 1 } : SPSCQueue α).slot i =
    if (q.readIndex.val + i) % 256 = q.writeIndex.val then a else q.slot i := by
  show (if (⟨(q.readIndex.val + i) % 256, Nat.mod_lt _ (by norm_num)⟩ : Fin 256) = q.writeIndex
      then a else q.buffer ⟨(q.readIndex.val + i) % 256, Nat.mod_lt _ (by norm_num)⟩) = _
  by_cases hc : (q.readIndex.val + i) % 256 = q.writeIndex.val
  · rw [if_pos (Fin.ext hc), if_pos hc]
  · rw [if_neg (fun hcon => hc (congrArg Fin.val hcon)), if_neg hc]
    rfl

/-- A non-full queue accepts the push, appending the item to its contents. -/
theorem try_push_ok (q : SPSCQueue α) (a : α) (h : q.size < 255) :
    (q.try_push a).1 = true ∧
    (q.try_push a).2.contents = q.contents ++ [a] ∧
    (q.try_push a).2.size = q.size + 1 := by
  have hr := q.readIndex.isLt
  have hw := q.writeIndex.isLt
  have key := q.size_key
  have h1 : (1 : Fin 256).val = 1 := rfl
  have hvadd : (q.writeIndex + 1).val = (q.writeIndex.val + 1) % 256 := by
    rw [Fin.val_add, h1]
  have hne : ¬ (q.writeIndex + 1 = q.readIndex) := by
    intro hcon
    have := congrArg Fin.val hcon
    rw [hvadd] at this
    omega
  set q' : SPSCQueue α :=
    { q with buffer := fun j => if j = q.writeIndex then a else q.buffer j,
             writeIndex := q.writeIndex + 1 } with hq'
  have hpush : q.try_push a = (true, q') := by
    rw [hq']
    simp only [try_push, if_neg hne]
  have key' : q'.size + q'.readIndex.val = q'.writeIndex.val ∨
      q'.size + q'.readIndex.val = q'.writeIndex.val + 256 := q'.size_key
  have hlt' := q'.size_lt
  have hread' : q'.readIndex = q.readIndex := rfl
  have hwrite' : q'.writeIndex.val = (q.writeIndex.val + 1) % 256 := hvadd
  rw [hread', hwrite'] at key'
  have hsize' : q'.size = q.size + 1 := by omega
  refine ⟨by rw [hpush], ?_, by rw [hpush]; exact hsize'⟩
  rw [hpush]
  show q'.contents = q.contents ++ [a]
  unfold contents
  rw [hsize', List.range_succ, List.map_append]
  congr 1
  · apply List.map_congr_left
    intro i hi
    rw [List.mem_range] at hi
    rw [hq', slot_after_push, if_neg (by omega)]
  · simp only [List.map_cons, List.map_nil]
    rw [hq', slot_after_push, if_pos (by omega)]

/-- A nonempty queue pops its oldest item, leaving the tail. -/
theorem try_pop_ok (q : SPSCQueue α) (h : q.size ≠ 0) :
    (q.try_pop).1 = some (q.buffer q.readIndex) ∧
    (q.try_pop).2.size = q.size - 1 ∧
    q.contents = q.buffer q.readIndex :: (q.try_pop).2.contents := by
  have hr := q.readIndex.isLt
  have hw := q.writeIndex.isLt
  have key := q.size_key
  have hlt := q.size_lt
  have h1 : (1 : Fin 256).val = 1 := rfl
  have hvadd : (q.readIndex + 1).val = (q.readIndex.val + 1) % 256 := by
    rw [Fin.val_add, h1]
  have hne : ¬ (q.readIndex = q.writeIndex) := by
    intro hcon
    have hvals := congrArg Fin.val hcon
    unfold size at h
    rw [hvals] at h
    simp at h
  set q' : SPSCQueue α := { q with readIndex := q.readIndex + 1 } with hq'
  have hpop : q.try_pop = (some (q.buffer q.readIndex), q') := by
    rw [hq']
    simp only [try_pop, if_neg hne]
  have key' : q'.size + q'.readIndex.val = q'.writeIndex.val ∨
      q'.size + q'.readIndex.val = q'.writeIndex.val + 256 := q'.size_key
  have hlt' := q'.size_lt
  have hwrite' : q'.writeIndex = q.writeIndex := rfl
  have hread' : q'.readIndex.val = (q.readIndex.val + 1) % 256 := hvadd
  rw [hwrite', hread'] at key'
  have hneval : q.readIndex.val ≠ q.writeIndex.val := fun hv => hne (Fin.ext hv)
  have hsize' : q'.size = q.size - 1 := by omega
  refine ⟨by rw [hpop], by rw [hpop]; exact hsize', ?_⟩
  rw [hpop]
  show q.contents = q.buffer q.readIndex :: q'.contents
  unfold contents
  obtain ⟨n, hn⟩ : ∃ n, q.size = n + 1 := ⟨q.size - 1, by omega⟩
  have hn' : q'.size = n := by omega
  rw [hn, hn', List.range_succ_eq_map, List.map_cons, List.map_map]
  congr 1
  · exact q.slot_zero
  · apply List.map_congr_left
    intro i hi
    show q.slot (i + 1) = q'.slot i
    rw [hq', slot_read_succ]

/-- Pushing a list onto a queue with enough free room: every push succeeds and
the items are appended in order. -/
theorem pushList_ok : ∀ (l : List α) (q : SPSCQueue α), q.size + l.length ≤ 255 →
    (q.pushList l).2 = l.map (fun _ => true) ∧
    (q.pushList l).1.contents = q.contents ++ l ∧
    (q.pushList l).1.size = q.size + l.length
  | [], q, _ => by simp [pushList]
  | a :: t, q, h => by
    have hlen : t.length + 1 = (a :: t).length := rfl
    have hroom : q.size < 255 := by
      have := List.length_cons a t
      omega
    obtain ⟨hok, hcont, hsize⟩ := q.try_push_ok a hroom
    have hrec := pushList_ok t (q.try_push a).2 (by
      have := List.length_cons a t
      omega)
    obtain ⟨hok2, hcont2, hsize2⟩ := hrec
    refine ⟨?_, ?_, ?_⟩
    · simp [pushList, hok, hok2]
    · simp only [pushList]
      rw [hcont2, hcont]
      simp
    · simp only [pushList]
      rw [hsize2, hsize]
      simp
      omega

/-- Popping exactly size-many times returns the contents, oldest first. -/
theorem popN_ok : ∀ (n : ℕ) (q : SPSCQueue α), q.size = n →
    (q.popN n).2 = q.contents.map some
  | 0, q, h => by
    unfold contents
    rw [h]
    simp [popN]
  | n + 1, q, h => by
    obtain ⟨hitem, hsize, hcont⟩ := q.try_pop_ok (by omega)
    have hrec := popN_ok n (q.try_pop).2 (by omega)
    simp only [popN]
    rw [hrec, hitem, hcont]
    simp

/-- clear (spsc_queue.h lines 72-76, equivalently audio_queue.cpp lines 72-75):
pop until the queue reports empty. -/
def clear (q : SPSCQueue α) : SPSCQueue α :=
  if q.readIndex = q.writeIndex then q
  else clear (q.try_pop).2
termination_by q.size
decreasing_by
  have hr := q.readIndex.isLt
  have hw := q.writeIndex.isLt
  have key := q.size_key
  have hlt := q.size_lt
  have hne : q.readIndex ≠ q.writeIndex := by assumption
  have hneval : q.readIndex.val ≠ q.writeIndex.val := fun hv => hne (Fin.ext hv)
  have hsz : q.size ≠ 0 := by
    unfold size
    split <;> omega
  obtain ⟨hitem, hsize, hcont⟩ := q.try_pop_ok hsz
  omega

/-- clear always terminates with read == write, i.e. an empty queue. -/
theorem clear_read_eq_write : ∀ (n : ℕ) (q : SPSCQueue α), q.size ≤ n →
    (q.clear).readIndex = (q.clear).writeIndex
  | 0, q, h => by
    have hr := q.readIndex.isLt
    have hw := q.writeIndex.isLt
    have key := q.size_key
    have heq : q.readIndex = q.writeIndex := by
      apply Fin.ext
      omega
    rw [clear, if_pos heq]
    exact heq
  | n + 1, q, h => by
    rw [clear]
    by_cases heq : q.readIndex = q.writeIndex
    · rw [if_pos heq]
      exact heq
    · rw [if_neg heq]
      apply clear_read_eq_write n
      have hr := q.readIndex.isLt
      have hw := q.writeIndex.isLt
      have key := q.size_key
      have hlt := q.size_lt
      have hneval : q.readIndex.val ≠ q.writeIndex.val := fun hv => heq (Fin.ext hv)
      have hsz : q.size ≠ 0 := by
        unfold size
        split <;> omega
      obtain ⟨hitem, hsize, hcont⟩ := q.try_pop_ok hsz
      omega

theorem size_zero_of_read_eq_write (q : SPSCQueue α) (h : q.readIndex = q.writeIndex) :
    q.size = 0 := by
  have hv := congrArg Fin.val h
  unfold size
  split <;> omega

theorem contents_of_size_zero (q : SPSCQueue α) (h : q.size = 0) : q.contents = [] := by
  unfold contents
  rw [h]
  rfl

end SPSCQueue

/-- C1: Queue FIFO — for every sequence of N ≤ capacity−1 = 255 try_push calls
on an initially empty command queue followed by N try_pop calls, every push
succeeds, every pop returns a value, and the popped commands are exactly the
pushed commands in push order. -/
theorem queue_fifo {α : Type} (a₀ : α) (l : List α) (h : l.length ≤ 255) :
    ((SPSCQueue.init a₀).pushList l).2 = l.map (fun _ => true) ∧
    (((SPSCQueue.init a₀).pushList l).1.popN l.length).2 = l.map some := by
  obtain ⟨hok, hcont, hsize⟩ := SPSCQueue.pushList_ok l (SPSCQueue.init a₀) (by
    rw [SPSCQueue.init_size]
    omega)
  refine ⟨hok, ?_⟩
  rw [SPSCQueue.init_size] at hsize
  rw [SPSCQueue.popN_ok l.length _ (by omega), hcont, SPSCQueue.init_contents]
  simp

/-- Witness for C1 at the concrete sequence [10, 20, 30]. -/
theorem queue_fifo_witness :
    (((SPSCQueue.init 0).pushList [10, 20, 30]).2 = [true, true, true]) ∧
    ((((SPSCQueue.init 0).pushList [10, 20, 30]).1.popN 3).2 =
      [some 10, some 20, some 30]) := by
  have h := queue_fifo 0 [10, 20, 30] (by norm_num)
  constructor
  · rw [h.1]
    rfl
  · have h2 := h.2
    rw [show ([10, 20, 30] : List ℕ).length = 3 from rfl] at h2
    rw [h2]
    rfl

/-- C2: Queue backpressure with atomicity — when the queue is full (the slot
after the write index equals the read index, equivalently size = 255),
try_push returns false and modifies no state: the returned queue is the input
queue itself, so its contents (the sequence subsequent pops will return) are
unchanged. -/
theorem queue_full_push_noop {α : Type} (q : SPSCQueue α) (cmd : α) (h : q.size = 255) :
    q.try_push cmd = (false, q) ∧
    (q.try_push cmd).2.contents = q.contents := by
  have h1 := q.try_push_full cmd h
  exact ⟨h1, by rw [h1]⟩

/-- Concrete full queue used by the C2 witness: write index 255, read index 0. -/
def fullQueueExample : SPSCQueue ℕ := ⟨255, 0, fun _ => 7⟩

/-- Witness for C2: pushing 9 onto the concrete full queue fails and leaves it
unchanged. -/
theorem queue_full_push_noop_witness :
    fullQueueExample.try_push 9 = (false, fullQueueExample) ∧
    (fullQueueExample.try_push 9).2.contents = fullQueueExample.contents :=
  queue_full_push_noop fullQueueExample 9 (by decide)

/-- Decoded audio data (audio_file.h): interleaved samples addressed through
data()/size(), a channel count and the loop flag. Samples are an unbounded map
from index to value so that reads past size model reads of adjacent memory. -/
structure AudioFile where
  data : ℕ → ℚ
  size : ℕ
  channels : ℕ
  looping : Bool

/-- Command tag (audio_queue.h, AudioCommand::Type). -/
inductive CommandType where
  | play
  | stop
  | setVolume
  | fadeIn
  | fadeOut
  | setPitch
  | setPosition
  | setLoop
deriving DecidableEq

/-- One queued playback-control command (audio_queue.h, struct AudioCommand). -/
structure AudioCommand where
  type : CommandType
  file : Option AudioFile
  value1 : ℚ
  value2 : ℚ
  channelId : ℤ
  flag : Bool

/-- The Stop command built by AudioQueue::pushStop (audio_queue.cpp lines 18-23):
default command with the stop tag and the target channel id. -/
def stopCommand (channelId : ℤ) : AudioCommand :=
  { type := CommandType.stop, file := none, value1 := 0, value2 := 0,
    channelId := channelId, flag := false }

/-- AudioQueue::pushStop: try_push the Stop command. -/
def pushStop (q : SPSCQueue AudioCommand) (channelId : ℤ) :
    Bool × SPSCQueue AudioCommand :=
  q.try_push (stopCommand channelId)

/-- AudioEngine::stopChannel (audio_engine.cpp lines 250-254): bounds-check the
channel id against MAX_CHANNELS = 16, then enqueue a Stop command. -/
def stopChannel (q : SPSCQueue AudioCommand) (channelId : ℤ) :
    SPSCQueue AudioCommand :=
  if 0 ≤ channelId ∧ channelId < 16 then (pushStop q channelId).2 else q

/-- AudioEngine::stopAll (audio_engine.cpp lines 256-261): stopChannel(i) for
every i in 0..15, then clear the command queue. -/
def stopAll (q : SPSCQueue AudioCommand) : SPSCQueue AudioCommand :=
  (((List.range 16).map (fun i => (i : ℤ))).foldl stopChannel q).clear

/-- C10: stopAll discards its own commands — for every prior queue state,
stopAll enqueues one Stop command per channel and then clears the queue, so on
return the queue is empty: empty() holds and no stored command remains. -/
theorem stop_all_clears_queue (q : SPSCQueue AudioCommand) :
    (stopAll q).empty = true ∧ (stopAll q).contents = [] := by
  set q1 := ((List.range 16).map (fun i => (i : ℤ))).foldl stopChannel q with hq1
  have hrw : (stopAll q) = q1.clear := rfl
  have heq := SPSCQueue.clear_read_eq_write q1.size q1 (le_refl _)
  rw [hrw]
  constructor
  · unfold SPSCQueue.empty
    rw [heq]
    simp
  · exact SPSCQueue.contents_of_size_zero _ (SPSCQueue.size_zero_of_read_eq_write _ heq)

/-- std::clamp(v, lo, hi): lo if v < lo, hi if hi < v, otherwise v. -/
def clamp (v lo hi : ℚ) : ℚ := if v < lo then lo else if hi < v then hi else v

/-- std::lerp(a, b, t) = a + t·(b − a). -/
def lerp (a b t : ℚ) : ℚ := a + t * (b - a)

/-- One playback voice (audio_engine.h, class AudioChannel): playback state as
exact rationals in place of the source's floats. Field names follow the m_
members of the source without the prefix. -/
structure AudioChannel where
  currentFile : Option AudioFile
  position : ℕ
  volume : ℚ
  targetVolume : ℚ
  fadeTimeRemaining : ℚ
  fadeDuration : ℚ
  pitch : ℚ
  positionX : ℚ
  positionY : ℚ
  active : Bool
  currentSpeed : ℚ
  targetSpeed : ℚ

namespace AudioChannel

/-- AudioChannel::stop (audio_engine.cpp lines 90-94): clear the active flag,
release the clip reference, reset the cursor. -/
def stop (c : AudioChannel) : AudioChannel :=
  { c with active := false, currentFile := none, position := 0 }

/-- AudioChannel::play (audio_engine.cpp lines 81-88): install the clip, reset
the cursor, set volume and target volume to the argument (no clamping in the
source), clear the fade, mark active. -/
def play (c : AudioChannel) (file : AudioFile) (vol : ℚ) : AudioChannel :=
  { c with currentFile := some file, position := 0, volume := vol,
           targetVolume := vol, fadeTimeRemaining := 0, active := true }

/-- AudioChannel::setVolume (audio_engine.cpp lines 96-100): clamp to [0,1],
set both volume and target, cancel any fade. -/
def setVolume (c : AudioChannel) (vol : ℚ) : AudioChannel :=
  { c with volume := clamp vol 0 1, targetVolume := clamp vol 0 1,
           fadeTimeRemaining := 0 }

/-- AudioChannel::setPitch (audio_engine.cpp lines 102-104). -/
def setPitch (c : AudioChannel) (newPitch : ℚ) : AudioChannel :=
  { c with pitch := clamp newPitch (1/10) 3 }

/-- AudioChannel::setPosition (audio_engine.cpp lines 106-109). -/
def setPosition (c : AudioChannel) (x y : ℚ) : AudioChannel :=
  { c with positionX := x, positionY := y }

/-- AudioChannel::setPlaybackSpeed (audio_engine.cpp lines 16-18). -/
def setPlaybackSpeed (c : AudioChannel) (speed : ℚ) : AudioChannel :=
  { c with targetSpeed := clamp speed (1/10) 3 }

/-- AudioChannel::fadeVolume (audio_engine.cpp lines 111-122): clamp the target
to [0,1]; a non-positive duration acts as an instantaneous set, otherwise the
target, total duration and remaining time are stored. -/
def fadeVolume (c : AudioChannel) (target duration : ℚ) : AudioChannel :=
  let t := clamp target 0 1
  if duration ≤ 0 then
    { c with volume := t, targetVolume := t, fadeTimeRemaining := 0 }
  else
    { c with targetVolume := t, fadeDuration := duration,
             fadeTimeRemaining := duration }

/-- AudioChannel::update (audio_engine.cpp lines 20-37): early-out when
inactive or clipless; smooth the playback speed; if a fade is in progress,
decrement the remaining time (floored at 0), lerp the volume with
t = 1 − remaining/total, and when the fade just finished with volume ≤ 0,
stop the channel. -/
def update (c : AudioChannel) (deltaTime : ℚ) : AudioChannel :=
  if c.active = false then c else
  match c.currentFile with
  | none => c
  | some _ =>
    let c1 := { c with currentSpeed := lerp c.currentSpeed c.targetSpeed (deltaTime * 8) }
    if 0 < c1.fadeTimeRemaining then
      let r := max 0 (c1.fadeTimeRemaining - deltaTime)
      let t := 1 - r / c1.fadeDuration
      let v := lerp c1.volume c1.targetVolume t
      let c2 := { c1 with fadeTimeRemaining := r, volume := v }
      if r = 0 ∧ v ≤ 0 then c2.stop else c2
    else c1

end AudioChannel

theorem clamp01_mem (v : ℚ) : 0 ≤ clamp v 0 1 ∧ clamp v 0 1 ≤ 1 := by
  unfold clamp
  split_ifs <;> constructor <;> linarith

theorem lerp_mem (a b t : ℚ) (ha0 : 0 ≤ a) (ha1 : a ≤ 1) (hb0 : 0 ≤ b) (hb1 : b ≤ 1)
    (ht0 : 0 ≤ t) (ht1 : t ≤ 1) : 0 ≤ lerp a b t ∧ lerp a b t ≤ 1 := by
  unfold lerp
  constructor <;> nlinarith

/-- The channel volume invariant: volume and target volume in [0,1], and any
in-progress fade has remaining time bounded by its total duration. -/
def VolumeInv (c : AudioChannel) : Prop :=
  0 ≤ c.volume ∧ c.volume ≤ 1 ∧ 0 ≤ c.targetVolume ∧ c.targetVolume ≤ 1 ∧
  (0 < c.fadeTimeRemaining → c.fadeTimeRemaining ≤ c.fadeDuration)

theorem volumeInv_setVolume (c : AudioChannel) (v : ℚ) (hinv : VolumeInv c) :
    VolumeInv (c.setVolume v) := by
  obtain ⟨hc0, hc1⟩ := clamp01_mem v
  exact ⟨hc0, hc1, hc0, hc1, fun h => absurd h (lt_irrefl 0)⟩

theorem volumeInv_stop (c : AudioChannel) (hinv : VolumeInv c) : VolumeInv c.stop :=
  hinv

theorem volumeInv_play (c : AudioChannel) (f : AudioFile) (v : ℚ)
    (hv0 : 0 ≤ v) (hv1 : v ≤ 1) : VolumeInv (c.play f v) :=
  ⟨hv0, hv1, hv0, hv1, fun h => absurd h (lt_irrefl 0)⟩

theorem volumeInv_fadeVolume (c : AudioChannel) (t d : ℚ) (hinv : VolumeInv c) :
    VolumeInv (c.fadeVolume t d) := by
  obtain ⟨h1, h2, h3, h4, h5⟩ := hinv
  obtain ⟨hc0, hc1⟩ := clamp01_mem t
  unfold AudioChannel.fadeVolume
  dsimp only
  split
  · exact ⟨hc0, hc1, hc0, hc1, fun h => absurd h (lt_irrefl 0)⟩
  · exact ⟨h1, h2, hc0, hc1, fun _ => le_refl _⟩

theorem volumeInv_update (c : AudioChannel) (dt : ℚ) (hinv : VolumeInv c)
    (hdt : 0 ≤ dt) : VolumeInv (c.update dt) := by
  obtain ⟨h1, h2, h3, h4, h5⟩ := hinv
  unfold AudioChannel.update
  split
  · exact ⟨h1, h2, h3, h4, h5⟩
  split
  · exact ⟨h1, h2, h3, h4, h5⟩
  dsimp only
  split
  · rename_i hfade
    have hr0 : (0 : ℚ) ≤ max 0 (c.fadeTimeRemaining - dt) := le_max_left 0 _
    have hrle : max 0 (c.fadeTimeRemaining - dt) ≤ c.fadeTimeRemaining :=
      max_le (le_of_lt hfade) (by linarith)
    have hdur : 0 < c.fadeDuration := lt_of_lt_of_le hfade (h5 hfade)
    have hrdur : max 0 (c.fadeTimeRemaining - dt) ≤ c.fadeDuration :=
      le_trans hrle (h5 hfade)
    have ht0 : 0 ≤ 1 - max 0 (c.fadeTimeRemaining - dt) / c.fadeDuration := by
      have := (div_le_one hdur).mpr hrdur
      linarith
    have ht1 : 1 - max 0 (c.fadeTimeRemaining - dt) / c.fadeDuration ≤ 1 := by
      have : 0 ≤ max 0 (c.fadeTimeRemaining - dt) / c.fadeDuration :=
        div_nonneg hr0 (le_of_lt hdur)
      linarith
    obtain ⟨hv0, hv1⟩ := lerp_mem c.volume c.targetVolume _ h1 h2 h3 h4 ht0 ht1
    split
    · exact ⟨hv0, hv1, h3, h4, fun _ => hrdur⟩
    · exact ⟨hv0, hv1, h3, h4, fun _ => hrdur⟩
  · exact ⟨h1, h2, h3, h4, h5⟩

/-- Concrete mono clip used by witnesses. -/
def fileExample : AudioFile := ⟨fun _ => 0, 4, 1, false⟩

/-- Concrete active channel holding fileExample, volume 0, no fade. -/
def channelExample : AudioChannel :=
  { currentFile := some fileExample, position := 0, volume := 0, targetVolume := 0,
    fadeTimeRemaining := 0, fadeDuration := 0, pitch := 1, positionX := 0,
    positionY := 0, active := true, currentSpeed := 1, targetSpeed := 1 }

/-- C3 (amended): the volume invariant is preserved by setVolume, fadeVolume,
update (with nonnegative delta time) and stop for any arguments, and by
play(file, v) when v itself lies in [0,1]; play stores its argument unclamped,
so the unconditional claim fails for play (see the counterexample). -/
theorem volume_invariant_after_ops (c : AudioChannel) (f : AudioFile)
    (v t d dt pv : ℚ) (hinv : VolumeInv c) (hdt : 0 ≤ dt) :
    VolumeInv (c.setVolume v) ∧ VolumeInv (c.fadeVolume t d) ∧
    VolumeInv (c.update dt) ∧ VolumeInv c.stop ∧
    (0 ≤ pv → pv ≤ 1 → VolumeInv (c.play f pv)) :=
  ⟨volumeInv_setVolume c v hinv, volumeInv_fadeVolume c t d hinv,
   volumeInv_update c dt hinv hdt, volumeInv_stop c hinv,
   fun h0 h1 => volumeInv_play c f pv h0 h1⟩

/-- C3 counterexample: AudioChannel::play stores its volume argument without
clamping, so play(file, 2) leaves the channel volume at 2, outside [0,1]. -/
theorem play_volume_unclamped_cex :
    (channelExample.play fileExample 2).volume = 2 ∧
    ¬ ((channelExample.play fileExample 2).volume ≤ 1) := by
  constructor
  · rfl
  · decide

/-- Witness for C3 at setVolume(5) on the concrete channel. -/
theorem volume_invariant_after_ops_witness :
    VolumeInv (channelExample.setVolume 5) :=
  (volume_invariant_after_ops channelExample fileExample 5 (1/2) 1 (1/4) 1
    (by norm_num [VolumeInv, channelExample]) (by norm_num)).1

/-- C4 (amended): for the first update after fadeVolume(target, d) with d > 0
and a delta time 0 ≤ dt ≤ d, the new volume is exactly the linear-ramp value
v0 + (clamped target − v0)·(dt/d). Across several update calls the source
re-lerps from the current volume with t = elapsed/total, which compounds and
deviates from the straight line (see the counterexample). -/
theorem fade_first_update_linear (c : AudioChannel) (f : AudioFile) (tgt d dt : ℚ)
    (hact : c.active = true) (hfile : c.currentFile = some f) (hd : 0 < d)
    (hdt0 : 0 ≤ dt) (hdtd : dt ≤ d) :
    ((c.fadeVolume tgt d).update dt).volume
      = c.volume + (clamp tgt 0 1 - c.volume) * (dt / d) := by
  have hd' : ¬ (d ≤ 0) := not_le.mpr hd
  unfold AudioChannel.fadeVolume
  dsimp only
  rw [if_neg hd']
  unfold AudioChannel.update
  dsimp only
  rw [hfile]
  simp only [hact]
  rw [if_neg (by simp)]
  rw [if_pos hd]
  rw [max_eq_right (by linarith : (0:ℚ) ≤ d - dt)]
  have halg : lerp c.volume (clamp tgt 0 1) (1 - (d - dt) / d)
      = c.volume + (clamp tgt 0 1 - c.volume) * (dt / d) := by
    unfold lerp
    field_simp
    ring
  split
  · exact halg
  · exact halg

/-- C4 counterexample: two updates of 1/4 each after fadeVolume(1, 1) on a
channel at volume 0 give volume 5/8, not the linear-ramp value
0 + (1 − 0)·((1/4 + 1/4)/1) = 1/2. -/
theorem fade_two_updates_not_linear_cex :
    (((channelExample.fadeVolume 1 1).update (1/4)).update (1/4)).volume = 5/8 ∧
    ¬ ((((channelExample.fadeVolume 1 1).update (1/4)).update (1/4)).volume
        = channelExample.volume
          + (1 - channelExample.volume) * ((1/4 + 1/4) / 1)) := by
  constructor
  · norm_num [AudioChannel.fadeVolume, AudioChannel.update, AudioChannel.stop,
      channelExample, fileExample, clamp, lerp, max_def]
  · norm_num [AudioChannel.fadeVolume, AudioChannel.update, AudioChannel.stop,
      channelExample, fileExample, clamp, lerp, max_def]

/-- Witness for C4: fadeVolume(1, 2) then update(1) on the concrete channel. -/
theorem fade_first_update_linear_witness :
    ((channelExample.fadeVolume 1 2).update 1).volume
      = channelExample.volume + (clamp 1 0 1 - channelExample.volume) * (1 / 2) :=
  fade_first_update_linear channelExample fileExample 1 2 1 rfl rfl
    (by norm_num) (by norm_num) (by norm_num)

/-- The stopped-with-silence state C5 drives a channel into. -/
def Stopped0 (c : AudioChannel) : Prop :=
  c.volume = 0 ∧ c.active = false ∧ c.currentFile = none ∧ c.position = 0

theorem update_of_inactive (c : AudioChannel) (dt : ℚ) (h : c.active = false) :
    c.update dt = c := by
  unfold AudioChannel.update
  rw [if_pos h]

theorem foldl_update_of_inactive (dts : List ℚ) (c : AudioChannel)
    (h : c.active = false) : dts.foldl AudioChannel.update c = c := by
  induction dts with
  | nil => rfl
  | cons dt rest ih =>
    rw [List.foldl_cons, update_of_inactive c dt h]
    exact ih

/-- An update that exhausts the remaining fade time towards target 0 drives
volume to exactly 0 and stops the channel. -/
theorem update_fade_crossing (c : AudioChannel) (f : AudioFile) (dt : ℚ)
    (hact : c.active = true) (hfile : c.currentFile = some f)
    (htgt : c.targetVolume = 0) (hrem : 0 < c.fadeTimeRemaining)
    (hcross : c.fadeTimeRemaining ≤ dt) : Stopped0 (c.update dt) := by
  unfold AudioChannel.update
  rw [hfile]
  simp only [hact]
  rw [if_neg (by simp)]
  rw [if_pos hrem]
  rw [max_eq_left (by linarith : c.fadeTimeRemaining - dt ≤ 0)]
  have hv : lerp c.volume c.targetVolume (1 - 0 / c.fadeDuration) = 0 := by
    rw [htgt]
    unfold lerp
    rw [zero_div]
    ring
  rw [if_pos ⟨rfl, le_of_eq hv⟩]
  exact ⟨hv, rfl, rfl, rfl⟩

/-- An update that does not exhaust the remaining fade time keeps the channel
active with the same clip, target and duration, decrementing remaining time. -/
theorem update_fade_continue (c : AudioChannel) (f : AudioFile) (dt : ℚ)
    (hact : c.active = true) (hfile : c.currentFile = some f)
    (hrem : 0 < c.fadeTimeRemaining) (hcont : dt < c.fadeTimeRemaining) :
    (c.update dt).active = true ∧ (c.update dt).currentFile = some f ∧
    (c.update dt).targetVolume = c.targetVolume ∧
    (c.update dt).fadeTimeRemaining = c.fadeTimeRemaining - dt ∧
    (c.update dt).fadeDuration = c.fadeDuration := by
  unfold AudioChannel.update
  rw [hfile]
  simp only [hact]
  rw [if_neg (by simp)]
  rw [if_pos hrem]
  rw [max_eq_right (by linarith : (0:ℚ) ≤ c.fadeTimeRemaining - dt)]
  rw [if_neg (by
    intro hand
    have := hand.1
    linarith)]
  exact ⟨rfl, rfl, rfl, rfl, rfl⟩

/-- Induction core for C5: a fade towards target 0 with remaining time covered
by the sum of the (nonnegative) update steps ends in the stopped state. -/
theorem fade_runs_out : ∀ (dts : List ℚ) (c : AudioChannel) (f : AudioFile),
    c.active = true → c.currentFile = some f → c.targetVolume = 0 →
    0 < c.fadeTimeRemaining → c.fadeTimeRemaining ≤ c.fadeDuration →
    (∀ x ∈ dts, 0 ≤ x) → c.fadeTimeRemaining ≤ dts.sum →
    Stopped0 (dts.foldl AudioChannel.update c)
  | [], c, f, hact, hfile, htgt, hrem, hremdur, hall, hsum => by
    rw [List.sum_nil] at hsum
    exact absurd hrem (by linarith)
  | dt :: rest, c, f, hact, hfile, htgt, hrem, hremdur, hall, hsum => by
    rw [List.foldl_cons]
    have hdt : 0 ≤ dt := hall dt (List.mem_cons_self dt rest)
    by_cases hcross : c.fadeTimeRemaining ≤ dt
    · have hstop := update_fade_crossing c f dt hact hfile htgt hrem hcross
      rw [foldl_update_of_inactive rest _ hstop.2.1]
      exact hstop
    · have hcont : dt < c.fadeTimeRemaining := not_le.mp hcross
      obtain ⟨ha', hf', ht', hr', hd'⟩ :=
        update_fade_continue c f dt hact hfile hrem hcont
      rw [List.sum_cons] at hsum
      apply fade_runs_out rest (c.update dt) f ha' hf'
      · rw [ht']
        exact htgt
      · rw [hr']
        linarith
      · rw [hr', hd']
        linarith
      · exact fun x hx => hall x (List.mem_cons_of_mem dt hx)
      · rw [hr']
        linarith

/-- C5: Fade-out completion auto-stops — for an active channel holding a clip,
fadeVolume(0, d) with d > 0 followed by updates whose (nonnegative) delta
times sum to at least d drives the volume to exactly 0 and transitions the
channel to inactive: active flag cleared, clip reference released, cursor
reset to 0. -/
theorem fade_out_auto_stop (c : AudioChannel) (f : AudioFile) (d : ℚ)
    (dts : List ℚ) (hact : c.active = true) (hfile : c.currentFile = some f)
    (hd : 0 < d) (hall : ∀ x ∈ dts, 0 ≤ x) (hsum : d ≤ dts.sum) :
    (dts.foldl AudioChannel.update (c.fadeVolume 0 d)).volume = 0 ∧
    (dts.foldl AudioChannel.update (c.fadeVolume 0 d)).active = false ∧
    (dts.foldl AudioChannel.update (c.fadeVolume 0 d)).currentFile = none ∧
    (dts.foldl AudioChannel.update (c.fadeVolume 0 d)).position = 0 := by
  have hd' : ¬ (d ≤ 0) := not_le.mpr hd
  have hfv : c.fadeVolume 0 d =
      { c with targetVolume := clamp 0 0 1, fadeDuration := d,
               fadeTimeRemaining := d } := by
    unfold AudioChannel.fadeVolume
    dsimp only
    rw [if_neg hd']
  have hclamp : clamp 0 0 1 = 0 := rfl
  apply fade_runs_out dts (c.fadeVolume 0 d) f
  · rw [hfv]
    exact hact
  · rw [hfv]
    exact hfile
  · rw [hfv]
    exact hclamp
  · rw [hfv]
    exact hd
  · rw [hfv]
  · exact hall
  · rw [hfv]
    exact hsum

/-- Witness for C5: fadeVolume(0, 1) then updates of 1/2 and 3/4 on the
concrete channel. -/
theorem fade_out_auto_stop_witness :
    (([1/2, 3/4] : List ℚ).foldl AudioChannel.update
        (channelExample.fadeVolume 0 1)).volume = 0 ∧
    (([1/2, 3/4] : List ℚ).foldl AudioChannel.update
        (channelExample.fadeVolume 0 1)).active = false ∧
    (([1/2, 3/4] : List ℚ).foldl AudioChannel.update
        (channelExample.fadeVolume 0 1)).currentFile = none ∧
    (([1/2, 3/4] : List ℚ).foldl AudioChannel.update
        (channelExample.fadeVolume 0 1)).position = 0 :=
  fade_out_auto_stop channelExample fileExample 1 [1/2, 3/4] rfl rfl
    (by norm_num) (by norm_num) (by norm_num [List.sum_cons, List.sum_nil])

namespace AudioChannel

/-- AudioChannel::calculatePanLeft (audio_engine.cpp lines 124-128). -/
def calculatePanLeft (c : AudioChannel) : ℚ :=
  if c.positionX = 0 then 1 else clamp (1 - c.positionX * (1/2)) 0 1

/-- AudioChannel::calculatePanRight (audio_engine.cpp lines 130-134). -/
def calculatePanRight (c : AudioChannel) : ℚ :=
  if c.positionX = 0 then 1 else clamp (1 + c.positionX * (1/2)) 0 1

/-- AudioChannel::applySpatialization (audio_engine.cpp lines 136-151):
distance attenuation (squared inverse-linear falloff, DISTANCE_FALLOFF = 1)
times the pan gains. Real-valued because of the square root. -/
noncomputable def applySpatialization (c : AudioChannel) (left right : ℝ) : ℝ × ℝ :=
  let distance := Real.sqrt ((c.positionX : ℝ) * (c.positionX : ℝ)
    + (c.positionY : ℝ) * (c.positionY : ℝ))
  let attenuation : ℝ := if 0 < distance then (min 1 (1 / (1 + 1 * distance))) ^ 2 else 1
  (left * ((calculatePanLeft c : ℝ) * attenuation),
   right * ((calculatePanRight c : ℝ) * attenuation))

/-- AudioChannel::interpolateSample (audio_engine.cpp lines 153-188): cubic
Hermite interpolation at a fractional position; pos2/pos3 clamp at the end of
the array, pos0 clamps at the start, pos1 is the floor of the position. -/
def interpolateSample (c : AudioChannel) (pos : ℚ) : ℚ :=
  match c.currentFile with
  | none => 0
  | some f =>
    let size := f.size
    let pos1 := Int.toNat ⌊pos⌋
    let frac := pos - (pos1 : ℚ)
    let pos0 := if pos1 = 0 then pos1 else pos1 - 1
    let pos2 := if size ≤ pos1 + 1 then pos1 else pos1 + 1
    let pos3 := if size ≤ pos1 + 2 then pos2 else pos1 + 2
    let p0 := f.data pos0
    let p1 := f.data pos1
    let p2 := f.data pos2
    let p3 := f.data pos3
    let t := frac
    let t2 := t * t
    let t3 := t2 * t
    let h0 := -(1/2) * t3 + t2 - (1/2) * t
    let h1 := (3/2) * t3 - (5/2) * t2 + 1
    let h2 := -(3/2) * t3 + 2 * t2 + (1/2) * t
    let h3 := (1/2) * t3 - (1/2) * t2
    p0 * h0 + p1 * h1 + p2 * h2 + p3 * h3

/-- The per-frame loop of AudioChannel::mix (audio_engine.cpp lines 50-76):
for each of the remaining frames, produce one (mono or averaged stereo)
interpolated sample, apply volume and spatialization gains, accumulate into
the interleaved output slots, advance the read position by the effective
pitch, and on passing the end of the source either wrap to 0 (looping) or
report the stop-and-break (third component true, with the final read
position). -/
noncomputable def mixFrames (c : AudioChannel) (f : AudioFile) (effectivePitch : ℚ) :
    ℕ → ℕ → ℚ → (ℕ → ℝ) → (ℕ → ℝ) × ℚ × Bool
  | 0, _, readPosition, buffer => (buffer, readPosition, false)
  | fuel + 1, frame, readPosition, buffer =>
    let sample : ℚ :=
      if f.channels = 1 then c.interpolateSample readPosition
      else (c.interpolateSample (readPosition * 2)
        + c.interpolateSample (readPosition * 2 + 1)) * (1/2)
    let gains := c.applySpatialization (c.volume : ℝ) (c.volume : ℝ)
    let buffer' : ℕ → ℝ := fun i =>
      if i = frame * 2 then buffer i + (sample : ℝ) * gains.1
      else if i = frame * 2 + 1 then buffer i + (sample : ℝ) * gains.2
      else buffer i
    let rp := readPosition + effectivePitch
    if f.size / f.channels ≤ Int.toNat ⌊rp⌋ then
      if f.looping then mixFrames c f effectivePitch fuel (frame + 1) 0 buffer'
      else (buffer', rp, true)
    else mixFrames c f effectivePitch fuel (frame + 1) rp buffer'

/-- AudioChannel::mix (audio_engine.cpp lines 39-79): early-out when inactive,
clipless or silent; otherwise run the frame loop and store the final cursor
(truncated read position) — after a stop-and-break the stop() fields are kept
but the cursor is overwritten by the final read position, as in the source. -/
noncomputable def mix (c : AudioChannel) (buffer : ℕ → ℝ) (frames : ℕ) :
    AudioChannel × (ℕ → ℝ) :=
  if c.active = false then (c, buffer) else
  match c.currentFile with
  | none => (c, buffer)
  | some f =>
    if c.volume ≤ 0 then (c, buffer) else
    let effectivePitch := c.pitch * c.currentSpeed
    let result := mixFrames c f effectivePitch frames 0 (c.position : ℚ) buffer
    let c1 := if result.2.2 then c.stop else c
    ({ c1 with position := Int.toNat ⌊result.2.1⌋ }, result.1)

end AudioChannel

/-- Early-exit helper: mix is the identity on silenced channels. -/
theorem mix_early_exit (c : AudioChannel) (buffer : ℕ → ℝ) (frames : ℕ)
    (h : c.active = false ∨ c.currentFile = none ∨ c.volume ≤ 0) :
    c.mix buffer frames = (c, buffer) := by
  unfold AudioChannel.mix
  rcases h with h | h | h
  · rw [if_pos h]
  · by_cases hact : c.active = false
    · rw [if_pos hact]
    · rw [if_neg hact]
      simp only [h]
  · by_cases hact : c.active = false
    · rw [if_pos hact]
    · rw [if_neg hact]
      cases hcf : c.currentFile with
      | none => rfl
      | some f =>
        simp only [hcf]
        rw [if_pos h]

/-- C9: Silent-channel frame condition — if a channel is inactive, holds no
clip, or has volume ≤ 0, mix returns the channel and the output buffer
completely unchanged, for every buffer and every frame count. -/
theorem mix_silent_noop (c : AudioChannel) (buffer : ℕ → ℝ) (frames : ℕ)
    (h : c.active = false ∨ c.currentFile = none ∨ c.volume ≤ 0) :
    c.mix buffer frames = (c, buffer) :=
  mix_early_exit c buffer frames h

/-- Concrete channel (active, with clip) at volume 0, for the C9 witness. -/
def silentChannelExample : AudioChannel := { channelExample with volume := 0 }

/-- Constant-zero stereo output buffer. -/
def zeroBuffer : ℕ → ℝ := fun _ => 0

/-- Witness for C9: the volume-0 channel leaves the zero buffer untouched. -/
theorem mix_silent_noop_witness :
    silentChannelExample.mix zeroBuffer 4 = (silentChannelExample, zeroBuffer) :=
  mix_silent_noop silentChannelExample zeroBuffer 4
    (Or.inr (Or.inr (by norm_num [silentChannelExample, channelExample])))

theorem mixWrite_diff (b b' : ℕ → ℝ) (x y : ℝ) (frame i : ℕ) :
    (if i = frame * 2 then b i + x else if i = frame * 2 + 1 then b i + y else b i)
      - (if i = frame * 2 then b' i + x else if i = frame * 2 + 1 then b' i + y else b' i)
    = b i - b' i := by
  split_ifs <;> ring

/-- The frame loop only ever adds to the buffer: the pointwise difference
between runs on two input buffers is the difference of the inputs. -/
theorem mixFrames_diff (c : AudioChannel) (f : AudioFile) (ep : ℚ) :
    ∀ (fuel frame : ℕ) (rp : ℚ) (b b' : ℕ → ℝ) (i : ℕ),
    (AudioChannel.mixFrames c f ep fuel frame rp b).1 i
      - (AudioChannel.mixFrames c f ep fuel frame rp b').1 i = b i - b' i
  | 0, frame, rp, b, b', i => by simp [AudioChannel.mixFrames]
  | fuel + 1, frame, rp, b, b', i => by
    simp only [AudioChannel.mixFrames]
    split
    · split
      · refine (mixFrames_diff c f ep fuel (frame + 1) 0 _ _ i).trans ?_
        exact mixWrite_diff b b' _ _ frame i
      · exact mixWrite_diff b b' _ _ frame i
    · refine (mixFrames_diff c f ep fuel (frame + 1) (rp + ep) _ _ i).trans ?_
      exact mixWrite_diff b b' _ _ frame i

/-- mix adds its contribution on top of whatever is already in the buffer. -/
theorem mix_buffer_adds (c : AudioChannel) (buffer : ℕ → ℝ) (frames : ℕ) (i : ℕ) :
    (c.mix buffer frames).2 i = buffer i + (c.mix (fun _ => 0) frames).2 i := by
  by_cases hact : c.active = false
  · rw [mix_early_exit c buffer frames (Or.inl hact),
      mix_early_exit c (fun _ => 0) frames (Or.inl hact)]
    simp
  · cases hcf : c.currentFile with
    | none =>
      rw [mix_early_exit c buffer frames (Or.inr (Or.inl hcf)),
        mix_early_exit c (fun _ => 0) frames (Or.inr (Or.inl hcf))]
      simp
    | some f =>
      by_cases hv : c.volume ≤ 0
      · rw [mix_early_exit c buffer frames (Or.inr (Or.inr hv)),
          mix_early_exit c (fun _ => 0) frames (Or.inr (Or.inr hv))]
        simp
      · have hd := mixFrames_diff c f (c.pitch * c.currentSpeed) frames 0
          (c.position : ℚ) buffer (fun _ => 0) i
        simp at hd
        simp only [AudioChannel.mix, hcf, if_neg hact, if_neg hv]
        linarith

/-- C7: Mixing is superposition — mix accumulates (adds, never overwrites)
into the output buffer, so mixing two channels in sequence yields, at every
slot, the prior buffer value plus the sum of the values each channel's mix
alone (into a zeroed buffer) would have written. -/
theorem mix_superposition (c1 c2 : AudioChannel) (buffer : ℕ → ℝ) (frames i : ℕ) :
    (c2.mix (c1.mix buffer frames).2 frames).2 i
      = buffer i + (c1.mix (fun _ => 0) frames).2 i
        + (c2.mix (fun _ => 0) frames).2 i := by
  rw [mix_buffer_adds c2 _ frames i, mix_buffer_adds c1 buffer frames i]

/-- Sample-array indices read by one interpolateSample call (audio_engine.cpp
lines 162-173): pos1 is the floor of the position (unclamped), pos0 clamps at
the start, pos2/pos3 clamp at the end. -/
def interpIndices (size : ℕ) (pos : ℚ) : List ℕ :=
  let pos1 := Int.toNat ⌊pos⌋
  let pos0 := if pos1 = 0 then pos1 else pos1 - 1
  let pos2 := if size ≤ pos1 + 1 then pos1 else pos1 + 1
  let pos3 := if size ≤ pos1 + 2 then pos2 else pos1 + 2
  [pos0, pos1, pos2, pos3]

/-- Sample-array indices read by the per-frame loop of mix (audio_engine.cpp
lines 50-76), mirroring mixFrames: mono frames read at the read position,
stereo frames at the doubled position and doubled position + 1; the cursor
then advances by the effective pitch, wrapping (loop) or stopping (break) when
it passes size / channels. -/
def mixReadIndices (f : AudioFile) (effectivePitch : ℚ) :
    ℕ → ℚ → List ℕ
  | 0, _ => []
  | fuel + 1, readPosition =>
    let idxs :=
      if f.channels = 1 then interpIndices f.size readPosition
      else interpIndices f.size (readPosition * 2)
        ++ interpIndices f.size (readPosition * 2 + 1)
    let rp := readPosition + effectivePitch
    if f.size / f.channels ≤ Int.toNat ⌊rp⌋ then
      if f.looping then idxs ++ mixReadIndices f effectivePitch fuel 0
      else idxs
    else idxs ++ mixReadIndices f effectivePitch fuel rp

/-- A stereo clip of 2 frames (4 interleaved samples), not looping. -/
def stereoFileExample : AudioFile := ⟨fun _ => 0, 4, 2, false⟩

/-- C6 fails on the code (stereo path): mixing the 2-frame stereo clip from
cursor 0 at effective pitch 3/2 for 2 frames reads sample index 4 = size (the
second frame's right-channel read lands at position 4.0, and pos1 = 4 is not
clamped), one past the end of the sample array — the claim requires every
read index to stay within [0, size−1] = [0, 3]. -/
theorem stereo_interp_reads_out_of_bounds :
    4 ∈ mixReadIndices stereoFileExample (3/2) 2 0 ∧ stereoFileExample.size = 4 := by
  constructor
  · norm_num [mixReadIndices, interpIndices, stereoFileExample]
    decide
  · rfl

/-- Peak scan of audioCallback (audio_engine.cpp lines 366-369): the largest
absolute sample value over the first n buffer slots. -/
def peakAmplitude (buffer : ℕ → ℚ) (n : ℕ) : ℚ :=
  (List.range n).foldl (fun acc i => max acc |buffer i|) 0

/-- Normalization factor (audio_engine.cpp lines 371-372): 1/peak when the
peak exceeds 1, otherwise 1. -/
def normalizationFactor (buffer : ℕ → ℚ) (n : ℕ) : ℚ :=
  if 1 < peakAmplitude buffer n then 1 / peakAmplitude buffer n else 1

/-- finalGain (audio_engine.cpp line 373): normalization × master volume ×
shutdown ramp gain. -/
def finalGain (buffer : ℕ → ℚ) (n : ℕ) (masterVolume shutdownRamp : ℚ) : ℚ :=
  normalizationFactor buffer n * masterVolume * shutdownRamp

/-- The final scaling loop of audioCallback (audio_engine.cpp lines 375-377):
each of the first n slots is multiplied by finalGain and clamped to [-1, 1]. -/
def applyFinalGain (buffer : ℕ → ℚ) (n : ℕ) (masterVolume shutdownRamp : ℚ) :
    ℕ → ℚ :=
  fun i => if i < n
    then clamp (buffer i * finalGain buffer n masterVolume shutdownRamp) (-1) 1
    else buffer i

theorem peak_foldl_aux (buffer : ℕ → ℚ) : ∀ (l : List ℕ) (acc : ℚ),
    acc ≤ l.foldl (fun a i => max a |buffer i|) acc ∧
    ∀ i ∈ l, |buffer i| ≤ l.foldl (fun a i => max a |buffer i|) acc
  | [], acc => ⟨le_refl _, fun i hi => absurd hi (List.not_mem_nil i)⟩
  | a :: t, acc => by
    obtain ⟨h1, h2⟩ := peak_foldl_aux buffer t (max acc |buffer a|)
    simp only [List.foldl_cons]
    refine ⟨le_trans (le_max_left _ _) h1, ?_⟩
    intro i hi
    rcases List.mem_cons.mp hi with h | h
    · rw [h]
      exact le_trans (le_max_right _ _) h1
    · exact h2 i h

theorem peak_nonneg (buffer : ℕ → ℚ) (n : ℕ) : 0 ≤ peakAmplitude buffer n :=
  (peak_foldl_aux buffer (List.range n) 0).1

theorem abs_le_peak (buffer : ℕ → ℚ) (n i : ℕ) (h : i < n) :
    |buffer i| ≤ peakAmplitude buffer n :=
  (peak_foldl_aux buffer (List.range n) 0).2 i (List.mem_range.mpr h)

theorem peak_foldl_le_aux (buffer : ℕ → ℚ) (B : ℚ) : ∀ (l : List ℕ) (acc : ℚ),
    acc ≤ B → (∀ i ∈ l, |buffer i| ≤ B) →
    l.foldl (fun a i => max a |buffer i|) acc ≤ B
  | [], acc, hacc, _ => hacc
  | a :: t, acc, hacc, hall => by
    simp only [List.foldl_cons]
    apply peak_foldl_le_aux buffer B t
    · exact max_le hacc (hall a (List.mem_cons_self a t))
    · exact fun i hi => hall i (List.mem_cons_of_mem a hi)

theorem peak_le (buffer : ℕ → ℚ) (n : ℕ) (B : ℚ) (hB : 0 ≤ B)
    (h : ∀ i, i < n → |buffer i| ≤ B) : peakAmplitude buffer n ≤ B :=
  peak_foldl_le_aux buffer B (List.range n) 0 hB
    (fun i hi => h i (List.mem_range.mp hi))

theorem clamp_of_abs_le (x : ℚ) (h : |x| ≤ 1) : clamp x (-1) 1 = x := by
  rw [abs_le] at h
  unfold clamp
  split_ifs <;> linarith [h.1, h.2]

theorem normalizationFactor_nonneg (buffer : ℕ → ℚ) (n : ℕ) :
    0 ≤ normalizationFactor buffer n := by
  unfold normalizationFactor
  split_ifs with h
  · positivity
  · norm_num

theorem abs_mul_normalizationFactor_le (buffer : ℕ → ℚ) (n i : ℕ) (h : i < n) :
    |buffer i| * normalizationFactor buffer n ≤ 1 := by
  have habs := abs_le_peak buffer n i h
  unfold normalizationFactor
  split_ifs with hpk
  · rw [mul_one_div]
    exact (div_le_one (by linarith)).mpr habs
  · rw [mul_one]
    exact le_trans habs (not_lt.mp hpk)

/-- C8: Peak limiting is linear and proportion-preserving — with the master
volume and shutdown ramp gain in [0,1], every slot of the post-mix scaling
stage equals the raw mixed value times the single factor
normalizationFactor × master × ramp (the trailing [-1,1] clamp never bites,
so relative proportions are preserved), that factor is 1/peak × master × ramp
whenever the mixed peak exceeds 1, and the final output peak is at most 1. -/
theorem audio_callback_limiter (buffer : ℕ → ℚ) (n : ℕ) (m s : ℚ)
    (hm0 : 0 ≤ m) (hm1 : m ≤ 1) (hs0 : 0 ≤ s) (hs1 : s ≤ 1) :
    (∀ i, i < n → applyFinalGain buffer n m s i
      = buffer i * finalGain buffer n m s) ∧
    (1 < peakAmplitude buffer n →
      finalGain buffer n m s = 1 / peakAmplitude buffer n * m * s) ∧
    peakAmplitude (applyFinalGain buffer n m s) n ≤ 1 := by
  have hnf0 := normalizationFactor_nonneg buffer n
  have hgain0 : 0 ≤ finalGain buffer n m s :=
    mul_nonneg (mul_nonneg hnf0 hm0) hs0
  have hkey : ∀ i, i < n → |buffer i * finalGain buffer n m s| ≤ 1 := by
    intro i hin
    have h1 := abs_mul_normalizationFactor_le buffer n i hin
    have h2 : (0:ℚ) ≤ |buffer i| := abs_nonneg _
    rw [abs_mul, abs_of_nonneg hgain0]
    unfold finalGain
    calc |buffer i| * (normalizationFactor buffer n * m * s)
        = ((|buffer i| * normalizationFactor buffer n) * m) * s := by ring
      _ ≤ (1 * m) * s := by
          apply mul_le_mul_of_nonneg_right _ hs0
          exact mul_le_mul_of_nonneg_right h1 hm0
      _ = m * s := by ring
      _ ≤ 1 := by nlinarith
  have heq : ∀ i, i < n → applyFinalGain buffer n m s i
      = buffer i * finalGain buffer n m s := by
    intro i hin
    unfold applyFinalGain
    rw [if_pos hin]
    exact clamp_of_abs_le _ (hkey i hin)
  refine ⟨heq, ?_, ?_⟩
  · intro hpk
    unfold finalGain normalizationFactor
    rw [if_pos hpk]
  · apply peak_le _ _ _ (by norm_num)
    intro i hin
    rw [heq i hin]
    exact hkey i hin

/-- Concrete mixed buffer for the C8 witness: slots 2 and 1, peak 2 > 1. -/
def limiterBufferExample : ℕ → ℚ :=
  fun i => if i = 0 then 2 else if i = 1 then 1 else 0

/-- Witness for C8 at the concrete buffer of peak 2 with master volume and
ramp both 1: slot 0 scales to the single-factor value and the output peak is
at most 1. -/
theorem audio_callback_limiter_witness :
    (applyFinalGain limiterBufferExample 2 1 1 0
      = limiterBufferExample 0 * finalGain limiterBufferExample 2 1 1) ∧
    peakAmplitude (applyFinalGain limiterBufferExample 2 1 1) 2 ≤ 1 :=
  ⟨(audio_callback_limiter limiterBufferExample 2 1 1 (by norm_num) (by norm_num)
      (by norm_num) (by norm_num)).1 0 (by norm_num),
   (audio_callback_limiter limiterBufferExample 2 1 1 (by norm_num) (by norm_num)
      (by norm_num) (by norm_num)).2.2⟩

end ste
